import Mathlib

/-!
Verification development for the tesla-vision pipeline
(src/processor.py, src/gif_worker.py, src/common.py, src/ui_app.py).

The Python sources are shallowly embedded: pure computations become Lean
functions, the filesystem becomes explicit state (directories as finite
sets of file names, the alert store as a map from alert id to record),
and Python dynamic errors (TypeError, AttributeError, UnboundLocalError,
FileNotFoundError, ValueError, JSON decode errors) are made explicit via
an error type and Except.
-/

/-- Python runtime errors that the embedded code can raise. -/
inductive PyError where
  | typeError (msg : String)
  | attributeError (msg : String)
  | unboundLocalError (name : String)
  | fileNotFoundError (name : String)
  | valueError (msg : String)
  | jsonDecodeError
  deriving DecidableEq, Repr

/- ---------------------------------------------------------------------
   processor.py: detection thresholds and detect_hits (lines 46-179)
--------------------------------------------------------------------- -/

/-- COCO class indices kept by the processor (processor.py line 49). -/
def KEEP : List Nat := [0, 1, 2, 3, 4, 5, 7]

/-- Minimum confidence per detection (processor.py line 52). -/
def CONFIDENCE_THRESHOLD : ℚ := 35 / 100

/-- Minimum number of detections across sampled frames (processor.py line 53). -/
def MIN_HITS_PER_CLIP : Nat := 3

/-- One YOLO detection box: class index and confidence score. -/
structure Detection where
  class_id : Nat
  confidence_score : ℚ
  deriving DecidableEq, Repr

/-- One recorded hit, as appended by detect_hits (processor.py line 172). -/
structure Hit where
  frame : Nat
  class_id : Nat
  confidence_score : ℚ
  deriving DecidableEq, Repr

/-- One sampled frame together with the detections the black-box model
returns on it.  `frame` is an opaque identifier for the frame contents
(the full-resolution image that detect_hits copies for the snapshot). -/
structure FrameData where
  frame_number : Nat
  frame : Nat
  detections : List Detection
  deriving DecidableEq, Repr

/-- The accumulator of detect_hits: the hits list, the best
full-resolution frame so far (none initially) and the best score so far
(0.0 initially), processor.py lines 145-147. -/
structure DetectState where
  hits : List Hit
  best_frame : Option Nat
  best_score : ℚ
  deriving DecidableEq, Repr

/-- Processing of one detection box inside detect_hits
(processor.py lines 165-177): keep it as a hit when the class is in the
allow-list and the confidence is at least the threshold, and track the
best-scoring frame for the snapshot. -/
def detect_step (frame_number : Nat) (frame : Nat) (st : DetectState)
    (d : Detection) : DetectState :=
  if d.class_id ∈ KEEP ∧ CONFIDENCE_THRESHOLD ≤ d.confidence_score then
    let st1 : DetectState :=
      { st with hits := st.hits ++ [⟨frame_number, d.class_id, d.confidence_score⟩] }
    if st.best_score < d.confidence_score then
      { st1 with best_score := d.confidence_score, best_frame := some frame }
    else
      st1
  else
    st

/-- detect_hits (processor.py lines 136-179): fold detect_step over every
detection of every sampled frame, starting from the empty state. -/
def detect_hits (frames : List FrameData) : DetectState :=
  frames.foldl
    (fun st fd => fd.detections.foldl (detect_step fd.frame_number fd.frame) st)
    ⟨[], none, 0⟩

/-- A detection qualifies as a hit: class in the allow-list and
confidence at least the (inclusive) threshold. -/
def is_hit (d : Detection) : Bool :=
  decide (d.class_id ∈ KEEP ∧ CONFIDENCE_THRESHOLD ≤ d.confidence_score)

/-- The qualifying detections of a clip, in stream order, as hit records. -/
def clip_hits (frames : List FrameData) : List Hit :=
  frames.flatMap
    (fun fd =>
      (fd.detections.filter is_hit).map
        (fun d => ⟨fd.frame_number, d.class_id, d.confidence_score⟩))

/-- The alert rule of processor.main (processor.py line 241):
enough hits and a snapshot frame exists. -/
def alert_emitted (frames : List FrameData) : Bool :=
  decide (MIN_HITS_PER_CLIP ≤ (detect_hits frames).hits.length)
    && !(detect_hits frames).best_frame.isNone

lemma detect_step_hits (n fr : Nat) (st : DetectState) (d : Detection) :
    (detect_step n fr st d).hits =
      if d.class_id ∈ KEEP ∧ CONFIDENCE_THRESHOLD ≤ d.confidence_score
      then st.hits ++ [⟨n, d.class_id, d.confidence_score⟩] else st.hits := by
  unfold detect_step
  split
  · split <;> rfl
  · rfl

lemma foldl_detect_hits (n fr : Nat) (ds : List Detection) : ∀ st : DetectState,
    (ds.foldl (detect_step n fr) st).hits =
      st.hits ++ (ds.filter is_hit).map
        (fun d => (⟨n, d.class_id, d.confidence_score⟩ : Hit)) := by
  induction ds with
  | nil => intro st; simp
  | cons d ds ih =>
      intro st
      rw [List.foldl_cons, ih, List.filter_cons]
      by_cases hq : d.class_id ∈ KEEP ∧ CONFIDENCE_THRESHOLD ≤ d.confidence_score
      · have hb : is_hit d = true := by simp [is_hit, hq]
        rw [detect_step_hits, if_pos hq, hb]
        simp
      · have hb : is_hit d = false := by simp [is_hit, hq]
        rw [detect_step_hits, if_neg hq, hb]
        simp

lemma detect_hits_hits_aux (frames : List FrameData) : ∀ st : DetectState,
    (frames.foldl
        (fun st fd => fd.detections.foldl (detect_step fd.frame_number fd.frame) st)
        st).hits
      = st.hits ++ clip_hits frames := by
  induction frames with
  | nil => intro st; simp [clip_hits]
  | cons fd fs ih =>
      intro st
      rw [List.foldl_cons, ih, foldl_detect_hits]
      simp [clip_hits]

lemma detect_hits_hits (frames : List FrameData) :
    (detect_hits frames).hits = clip_hits frames := by
  rw [detect_hits, detect_hits_hits_aux]
  rfl

/-- Invariant of the detect_hits accumulator: a snapshot frame has been
captured exactly when some hit has been recorded, and while no snapshot
exists the best score is still the initial 0. -/
def DetectInv (st : DetectState) : Prop :=
  (st.best_frame = none ↔ st.hits = []) ∧ (st.best_frame = none → st.best_score = 0)

lemma detect_step_inv (n fr : Nat) (st : DetectState) (d : Detection)
    (h : DetectInv st) : DetectInv (detect_step n fr st d) := by
  rcases h with ⟨h1, h2⟩
  unfold detect_step
  split
  case isTrue hq =>
    split
    case isTrue hlt =>
      refine ⟨?_, ?_⟩
      · simp
      · intro hc; simp at hc
    case isFalse hge =>
      have hpos : (0 : ℚ) < d.confidence_score :=
        lt_of_lt_of_le (by norm_num [CONFIDENCE_THRESHOLD]) hq.2
      have hne : st.best_frame ≠ none := by
        intro hnone
        exact hge (by rw [h2 hnone]; exact hpos)
      refine ⟨⟨fun hh => absurd hh hne, fun hh => ?_⟩, fun hh => absurd hh hne⟩
      · exact absurd hh (by simp)
  case isFalse => exact ⟨h1, h2⟩

lemma foldl_detect_inv (n fr : Nat) (ds : List Detection) : ∀ st : DetectState,
    DetectInv st → DetectInv (ds.foldl (detect_step n fr) st) := by
  induction ds with
  | nil => intro st h; exact h
  | cons d ds ih =>
      intro st h
      rw [List.foldl_cons]
      exact ih _ (detect_step_inv n fr st d h)

lemma foldl_frames_inv (frames : List FrameData) : ∀ st : DetectState,
    DetectInv st →
    DetectInv (frames.foldl
      (fun st fd => fd.detections.foldl (detect_step fd.frame_number fd.frame) st) st) := by
  induction frames with
  | nil => intro st h; exact h
  | cons fd fs ih =>
      intro st h
      rw [List.foldl_cons]
      exact ih _ (foldl_detect_inv fd.frame_number fd.frame fd.detections st h)

lemma detect_hits_inv (frames : List FrameData) : DetectInv (detect_hits frames) := by
  rw [detect_hits]
  exact foldl_frames_inv frames ⟨[], none, 0⟩ ⟨by simp, fun _ => rfl⟩

lemma detect_best_frame_none (frames : List FrameData) :
    ((detect_hits frames).best_frame = none) ↔ (clip_hits frames = []) := by
  have h := (detect_hits_inv frames).1
  rw [detect_hits_hits frames] at h
  exact h

/-- C4: for every clip processed from intake, an Alert Record is created
exactly when the number of hits is at least the configured minimum
MIN_HITS_PER_CLIP and at least one representative frame was captured,
where a hit is a detection whose class is in the KEEP allow-list and
whose confidence is at least CONFIDENCE_THRESHOLD, both thresholds
inclusive.  The first conjunct identifies the hits accumulated by
detect_hits with exactly the qualifying detections; the second restates
the alert rule of processor.main, using the fact that a representative
frame is captured exactly when there is at least one hit. -/
theorem detect_alert_rule (frames : List FrameData) :
    (detect_hits frames).hits = clip_hits frames ∧
    (alert_emitted frames = true ↔
      MIN_HITS_PER_CLIP ≤ (clip_hits frames).length ∧ 0 < (clip_hits frames).length) := by
  refine ⟨detect_hits_hits frames, ?_⟩
  rw [alert_emitted, Bool.and_eq_true, decide_eq_true_eq, detect_hits_hits frames]
  constructor
  · rintro ⟨ha, hb⟩
    refine ⟨ha, ?_⟩
    rcases Nat.eq_zero_or_pos (clip_hits frames).length with hz | hp
    · exfalso
      have : clip_hits frames = [] := List.length_eq_zero.mp hz
      have : (detect_hits frames).best_frame = none := (detect_best_frame_none frames).mpr this
      rw [this] at hb
      simp at hb
    · exact hp
  · rintro ⟨ha, hb⟩
    refine ⟨ha, ?_⟩
    have hne : clip_hits frames ≠ [] := by
      intro hc
      rw [hc] at hb
      simp at hb
    cases hm : (detect_hits frames).best_frame with
    | none => exact absurd ((detect_best_frame_none frames).mp hm) hne
    | some fr => simp


/- ---------------------------------------------------------------------
   processor.py: safe_copy_to_inbox and the ingestion scan (lines 55-98,
   222-231).  The intake directory is modelled as the finite set of file
   names it contains; a source file is its base name plus the outcome of
   the stability gate on it (stability is external input here; the gate
   itself is modelled separately below).
--------------------------------------------------------------------- -/

/-- A clip file under the source tree: its base name and whether
file_is_stable holds for it during this scan. -/
structure SourceFile where
  name : String
  stable : Bool
  deriving DecidableEq, Repr

/-- Python str.startswith applied to the hidden-file marker
(processor.py line 83): the first character is a dot. -/
def dotfile (n : String) : Bool := n.data.head? == some ('.')

/-- The temporary copy name used by safe_copy_to_inbox
(processor.py line 94). -/
def tmp_name (n : String) : String := ".tmp_" ++ n

/-- safe_copy_to_inbox (processor.py lines 74-98): skip dotfiles, skip
files the stability gate rejects, skip (no-op) when the destination name
already exists in the intake set; otherwise copy to the temporary name
and atomically rename it onto the final name.  Returns the new intake
set and the destination (none on every skip, mirroring the None
returns). -/
def safe_copy_to_inbox (ib : Finset String) (src : SourceFile) :
    Finset String × Option String :=
  if dotfile src.name then (ib, none)
  else if src.stable = false then (ib, none)
  else if src.name ∈ ib then (ib, none)
  else
    (insert src.name ((insert (tmp_name src.name) ib).erase (tmp_name src.name)),
      some src.name)

/-- The ingest step of processor.main (lines 222-231): fold
safe_copy_to_inbox over every clip found under the source tree.  (The
in-memory seen set only avoids repeat stability checks within one
process; it is lost on restart, which is the situation the idempotence
claim is about, so the scan is modelled without it.) -/
def ingest_scan (tree : List SourceFile) (ib : Finset String) : Finset String :=
  tree.foldl (fun ib src => (safe_copy_to_inbox ib src).1) ib

lemma dotfile_tmp (n : String) : dotfile (tmp_name n) = true := by
  cases n with
  | mk l => simp [dotfile, tmp_name, String.data_append]

/-- One safe_copy step, seen through membership of a non-hidden name. -/
lemma mem_safe_copy (ib : Finset String) (src : SourceFile) (n : String)
    (hn : dotfile n = false) :
    n ∈ (safe_copy_to_inbox ib src).1 ↔
      n ∈ ib ∨ (src.stable = true ∧ dotfile src.name = false ∧ src.name = n) := by
  have htmp : n ≠ tmp_name src.name := by
    intro h
    rw [h, dotfile_tmp] at hn
    cases hn
  unfold safe_copy_to_inbox
  split
  case isTrue hd =>
    simp only []
    constructor
    · exact fun h => Or.inl h
    · rintro (h | ⟨_, hdot, hname⟩)
      · exact h
      · rw [hname] at hd
        rw [hd] at hn
        cases hn
  case isFalse hd =>
    split
    case isTrue hs =>
      simp only []
      constructor
      · exact fun h => Or.inl h
      · rintro (h | ⟨hstable, _, _⟩)
        · exact h
        · rw [hstable] at hs
          cases hs
    case isFalse hs =>
      split
      case isTrue hmem =>
        simp only []
        constructor
        · exact fun h => Or.inl h
        · rintro (h | ⟨_, _, hname⟩)
          · exact h
          · rw [← hname]
            exact hmem
      case isFalse hmem =>
        simp only [Finset.mem_insert, Finset.mem_erase]
        constructor
        · rintro (h | ⟨hne, (heq | h)⟩)
          · refine Or.inr ⟨?_, ?_, h.symm⟩
            · cases hstable : src.stable with
              | false => exact absurd hstable hs
              | true => rfl
            · cases hdot : dotfile src.name with
              | false => rfl
              | true => exact absurd hdot (by intro hc; exact hd hc)
          · exact absurd heq hne
          · exact Or.inl h
        · rintro (h | ⟨_, _, hname⟩)
          · exact Or.inr ⟨htmp, Or.inr h⟩
          · exact Or.inl hname.symm

/-- Membership in the intake set after a whole ingestion scan, for
non-hidden names: the name was already there, or some stable non-hidden
source file carries it. -/
lemma mem_ingest_scan (tree : List SourceFile) : ∀ (ib : Finset String) (n : String),
    dotfile n = false →
    (n ∈ ingest_scan tree ib ↔
      n ∈ ib ∨ ∃ src ∈ tree, src.stable = true ∧ dotfile src.name = false ∧ src.name = n) := by
  induction tree with
  | nil =>
      intro ib n _
      simp [ingest_scan]
  | cons src tree ih =>
      intro ib n hn
      rw [ingest_scan, List.foldl_cons]
      have step := mem_safe_copy ib src n hn
      have rest := ih (safe_copy_to_inbox ib src).1 n hn
      rw [ingest_scan] at rest
      rw [rest, step]
      constructor
      · rintro ((h | h) | ⟨s, hs, hprop⟩)
        · exact Or.inl h
        · exact Or.inr ⟨src, List.mem_cons_self src tree, h⟩
        · exact Or.inr ⟨s, List.mem_cons_of_mem src hs, hprop⟩
      · rintro (h | ⟨s, hs, hprop⟩)
        · exact Or.inl (Or.inl h)
        · rcases List.mem_cons.mp hs with hh | hh
          · exact Or.inl (Or.inr (by rw [← hh]; exact hprop))
          · exact Or.inr ⟨s, hh, hprop⟩

/-- A scan over a tree whose every stable, non-hidden clip name is
already present in intake changes nothing: each step takes a skip
branch. -/
lemma ingest_scan_noop (tree : List SourceFile) : ∀ ib : Finset String,
    (∀ src ∈ tree, src.stable = true → dotfile src.name = false → src.name ∈ ib) →
    ingest_scan tree ib = ib := by
  induction tree with
  | nil => intro ib _; rfl
  | cons src tree ih =>
      intro ib h
      rw [ingest_scan, List.foldl_cons]
      have hstep : (safe_copy_to_inbox ib src).1 = ib := by
        unfold safe_copy_to_inbox
        split
        · rfl
        case isFalse hd =>
          split
          · rfl
          case isFalse hs =>
            have hmem : src.name ∈ ib := by
              refine h src (List.mem_cons_self src tree) ?_ ?_
              · cases hstable : src.stable with
                | false => exact absurd hstable hs
                | true => rfl
              · cases hdot : dotfile src.name with
                | false => rfl
                | true => exact absurd hdot (by intro hc; exact hd hc)
            rw [if_pos hmem]
      rw [hstep]
      exact ih ib (fun s hs => h s (List.mem_cons_of_mem src hs))

/-- Hidden names (leading dot) are never added to intake by a copy step:
the only insertion of a dot-name is the temporary copy, and it is
renamed away within the same step. -/
lemma dot_mem_safe_copy (ib : Finset String) (src : SourceFile) (n : String)
    (hn : dotfile n = true) :
    n ∈ (safe_copy_to_inbox ib src).1 → n ∈ ib := by
  unfold safe_copy_to_inbox
  split
  · exact id
  case isFalse hd =>
    split
    · exact id
    · split
      · exact id
      · intro h
        simp only [Finset.mem_insert, Finset.mem_erase] at h
        rcases h with h | ⟨hne, (heq | h)⟩
        · rw [h] at hn
          exact absurd hn hd
        · exact absurd heq hne
        · exact h

lemma dot_mem_ingest_scan (tree : List SourceFile) : ∀ (ib : Finset String) (n : String),
    dotfile n = true → n ∈ ingest_scan tree ib → n ∈ ib := by
  induction tree with
  | nil => intro ib n _ h; exact h
  | cons src tree ih =>
      intro ib n hn h
      rw [ingest_scan, List.foldl_cons] at h
      exact dot_mem_safe_copy ib src n hn (ih _ n hn h)

/-- C5: ingestion is idempotent.  Conjunct one: the copy is skipped as a
no-op (not an error) when a file of the same final name already exists
in intake.  Conjunct two: after a scan of the source tree into an empty
intake directory, the intake holds exactly one file per stable,
non-hidden source clip name (intake is a set, so one file per name), and
hence a second scan over the unchanged tree, conjunct three, leaves the
intake exactly as it was. -/
theorem ingest_idempotent (tree : List SourceFile) :
    (∀ (ib : Finset String) (src : SourceFile),
      src.name ∈ ib → safe_copy_to_inbox ib src = (ib, none)) ∧
    (∀ n : String, n ∈ ingest_scan tree ∅ ↔
      ∃ src ∈ tree, src.stable = true ∧ dotfile src.name = false ∧ src.name = n) ∧
    ingest_scan tree (ingest_scan tree ∅) = ingest_scan tree ∅ := by
  have hmem : ∀ n : String, n ∈ ingest_scan tree ∅ ↔
      ∃ src ∈ tree, src.stable = true ∧ dotfile src.name = false ∧ src.name = n := by
    intro n
    cases hdot : dotfile n with
    | false =>
        rw [mem_ingest_scan tree ∅ n hdot]
        simp
    | true =>
        constructor
        · intro h
          exact absurd (dot_mem_ingest_scan tree ∅ n hdot h) (Finset.not_mem_empty n)
        · rintro ⟨src, _, _, hdotname, hname⟩
          rw [hname] at hdotname
          rw [hdotname] at hdot
          cases hdot
  refine ⟨?_, hmem, ?_⟩
  · intro ib src h
    unfold safe_copy_to_inbox
    split
    · rfl
    · split
      · rfl
      · simp [h]
  · refine ingest_scan_noop tree _ ?_
    intro src hs hstable hdot
    exact (hmem src.name).mpr ⟨src, hs, hstable, hdot, rfl⟩

/-- Witness for C5 at a one-clip tree. -/
theorem ingest_idempotent_witness :
    safe_copy_to_inbox ({"clip.mp4"} : Finset String) ⟨"clip.mp4", true⟩
        = (({"clip.mp4"} : Finset String), none) ∧
    "clip.mp4" ∈ ingest_scan [⟨"clip.mp4", true⟩] ∅ ∧
    ingest_scan [⟨"clip.mp4", true⟩] (ingest_scan [⟨"clip.mp4", true⟩] ∅)
        = ingest_scan [⟨"clip.mp4", true⟩] ∅ := by
  obtain ⟨h1, h2, h3⟩ := ingest_idempotent [⟨"clip.mp4", true⟩]
  refine ⟨?_, ?_, h3⟩
  · exact h1 ({"clip.mp4"} : Finset String) ⟨"clip.mp4", true⟩ (by simp)
  · exact (h2 ("clip.mp4")).mpr ⟨⟨"clip.mp4", true⟩, by simp, rfl, by decide, rfl⟩

/- ---------------------------------------------------------------------
   processor.py: the per-item processing step of main (lines 235-272).
   Detection and alert construction are external collaborators that may
   raise; the outcome of the try-block body is therefore an input of the
   per-item step.  The inbox and the processed directory are finite sets
   of names.
--------------------------------------------------------------------- -/

/-- Outcome of the try-block body for one inbox clip: the detection and
alert construction either completed (with or without an alert) or raised
some exception. -/
inductive ItemOutcome where
  | success
  | failure (e : PyError)
  deriving DecidableEq, Repr

/-- The state the Intake Processor manipulates: the intake directory and
the processed-archive directory. -/
structure ProcState where
  inbox : Finset String
  processed : Finset String
  deriving DecidableEq

/-- The name a clip is filed under in the processed archive when its
processing raised (processor.py line 266). -/
def error_dest (name : String) : String := "error_" ++ name

/-- One iteration of the inbox loop of processor.main (lines 235-271):
on success the clip is renamed into the processed archive under its own
name (line 262); on any exception it is renamed into the processed
archive under the error name (lines 266-268), and in both cases the loop
moves on to the next item. -/
def process_item (st : ProcState) (name : String) (outcome : ItemOutcome) : ProcState :=
  match outcome with
  | .success => ⟨st.inbox.erase name, insert name st.processed⟩
  | .failure _ => ⟨st.inbox.erase name, insert (error_dest name) st.processed⟩

/-- A whole pass of the inbox loop over its (sorted) directory listing:
fold process_item over the items; no outcome aborts the fold. -/
def process_pass (st : ProcState) (items : List (String × ItemOutcome)) : ProcState :=
  items.foldl (fun st it => process_item st it.1 it.2) st

lemma error_dest_ne (name : String) : error_dest name ≠ name := by
  intro h
  have hlen := congrArg (fun s : String => s.data.length) h
  cases name with
  | mk l =>
      simp [error_dest, String.data_append] at hlen
      omega

/-- C7: every file processed from intake is relocated out of intake by
the end of its iteration; on success it lands in the processed archive
under its own name, on any exception it lands under the distinct
error-prefixed name; and the pass continues past any item, so a failing
item never terminates the loop (processing a listing is composable
around any split point). -/
theorem intake_relocation (st : ProcState) (name : String) (outcome : ItemOutcome)
    (items1 items2 : List (String × ItemOutcome)) :
    name ∉ (process_item st name outcome).inbox ∧
    (outcome = ItemOutcome.success →
      name ∈ (process_item st name outcome).processed) ∧
    (∀ e : PyError, outcome = ItemOutcome.failure e →
      error_dest name ∈ (process_item st name outcome).processed ∧
      error_dest name ≠ name) ∧
    process_pass st (items1 ++ items2) = process_pass (process_pass st items1) items2 := by
  refine ⟨?_, ?_, ?_, ?_⟩
  · cases outcome <;> exact Finset.not_mem_erase name st.inbox
  · intro h
    rw [h]
    exact Finset.mem_insert_self name st.processed
  · intro e h
    rw [h]
    exact ⟨Finset.mem_insert_self (error_dest name) st.processed, error_dest_ne name⟩
  · rw [process_pass, process_pass, process_pass, List.foldl_append]

/-- Witness for C7 at a concrete state, with one success and one failure. -/
theorem intake_relocation_witness :
    "a.mp4" ∉ (process_item ⟨{"a.mp4"}, ∅⟩ ("a.mp4") ItemOutcome.success).inbox ∧
    "a.mp4" ∈ (process_item ⟨{"a.mp4"}, ∅⟩ ("a.mp4") ItemOutcome.success).processed ∧
    error_dest ("b.mp4")
        ∈ (process_item ⟨{"b.mp4"}, ∅⟩ ("b.mp4")
            (ItemOutcome.failure PyError.jsonDecodeError)).processed ∧
    error_dest ("b.mp4") ≠ "b.mp4" := by
  obtain ⟨h1, h2, _, _⟩ :=
    intake_relocation ⟨{"a.mp4"}, ∅⟩ ("a.mp4") ItemOutcome.success [] []
  obtain ⟨_, _, h3, _⟩ :=
    intake_relocation ⟨{"b.mp4"}, ∅⟩ ("b.mp4")
      (ItemOutcome.failure PyError.jsonDecodeError) [] []
  obtain ⟨h4, h5⟩ := h3 PyError.jsonDecodeError rfl
  exact ⟨h1, h2 rfl, h4, h5⟩

/- ---------------------------------------------------------------------
   gif_worker.py: job file names, the alert store, update_alert_status
   (lines 75-82) and the post-claim worker body (lines 118-153).
--------------------------------------------------------------------- -/

/-- pathlib suffix: the part of the name from the last dot on, provided
that dot is neither the leading character nor the last one. -/
def path_suffix (name : String) : String :=
  let cs := name.data
  let dots := (List.range cs.length).filter (fun i => cs.getD i ' ' == '.')
  match dots.getLast? with
  | none => ""
  | some i => if 0 < i ∧ i + 1 < cs.length then String.mk (cs.drop i) else ""

/-- pathlib Path.with_suffix: strip the current suffix (if any) from the
name and append the new suffix.  The new suffix replaces only the final
dotted component of the old name. -/
def path_with_suffix (name suffix : String) : String :=
  let old := path_suffix name
  if old = "" then name ++ suffix
  else String.mk (name.data.take (name.data.length - old.data.length)) ++ suffix

/-- The claim rename target (gif_worker.py line 108):
job_file.with_suffix of the string .json.processing. -/
def claimed_name (job_file : String) : String :=
  path_with_suffix job_file (".json.processing")

/-- The terminal rename target (gif_worker.py lines 140 and 149):
claimed.with_suffix of the string .json.done. -/
def done_name (claimed : String) : String :=
  path_with_suffix claimed (".json.done")

/-- An alert record as written by processor.main (lines 247-256). -/
structure Alert where
  id : String
  timestamp : Nat
  source_file : String
  score : ℚ
  hits : List Hit
  jpeg : String
  gif : String
  status : String
  deriving DecidableEq, Repr

/-- The alerts directory: at most one record per alert id. -/
def AlertStore : Type := String → Option Alert

/-- An empty alerts directory. -/
def emptyStore : AlertStore := fun _ => none

/-- The keyword arguments collected by the ** parameter of
update_alert_status.  The only key any call site of gif_worker.py ever
passes this way is the artifact filename field (line 137): the call on
line 137 passes status and gif, the call on line 147 passes only status,
and status is captured by the named parameter of the function, not by
the ** parameter. -/
inductive FieldUpdate where
  | setGif (v : String)
  deriving DecidableEq, Repr

/-- Python dict.update applied to the record for the collected keyword
arguments. -/
def apply_updates : Alert → List FieldUpdate → Alert
  | a, [] => a
  | a, FieldUpdate.setGif v :: rest => apply_updates { a with gif := v } rest

set_option linter.unusedVariables false in
/-- update_alert_status (gif_worker.py lines 75-82): if the alert
document does not exist, return without any write; otherwise load it,
apply dict.update with the ** keyword arguments, and save.  The status
parameter is bound by the function signature and never used in the body:
the body only applies `updates`. -/
def update_alert_status (store : AlertStore) (alert_id : String) (status : String)
    (updates : List FieldUpdate) : AlertStore :=
  match store alert_id with
  | none => store
  | some a => fun k => if k = alert_id then some (apply_updates a updates) else store k

/-- The success-path call (gif_worker.py line 137): keyword arguments
status gif_done and gif set to the artifact name; only gif reaches the
** parameter. -/
def worker_success_update (store : AlertStore) (alert_id gif_name : String) : AlertStore :=
  update_alert_status store alert_id ("gif_done") [FieldUpdate.setGif gif_name]

/-- The failure-path call (gif_worker.py line 147): keyword argument
status gif_failed only; the ** parameter collects nothing. -/
def worker_failure_update (store : AlertStore) (alert_id : String) : AlertStore :=
  update_alert_status store alert_id ("gif_failed") []

/-- What the claimed job file yields at gif_worker.py lines 119-121.
unparsable: load_json or the attribute accesses on the job object raised
before the assignment to alert_id completed, so the local name alert_id
is never bound.  fields: both assignments completed, with the stripped
string values. -/
inductive JobPayload where
  | unparsable (e : PyError)
  | fields (alert_id : String) (video : String)
  deriving DecidableEq, Repr

/-- Result of the try-block body (gif_worker.py lines 118-143): either
the success path would complete, or an exception is raised with the
given binding state of the local alert_id. -/
inductive BodyResult where
  | ok (alert_id : String) (gif_name : String)
  | raised (e : PyError) (alert_id_bound : Option String)
  deriving DecidableEq, Repr

/-- The try-block body.  After the guards on lines 123-126, line 129
evaluates video_path.exist(); Path objects have an exists method but no
exist attribute, so this raises AttributeError unconditionally and the
success continuation on lines 132-143 is unreachable. -/
def worker_try_body (payload : JobPayload) : BodyResult :=
  match payload with
  | JobPayload.unparsable e => BodyResult.raised e none
  | JobPayload.fields alert_id video =>
      if alert_id = "" then
        BodyResult.raised (PyError.valueError ("job missing alert_id")) (some alert_id)
      else if video = "" then
        BodyResult.raised (PyError.valueError ("job missing video string")) (some alert_id)
      else
        BodyResult.raised
          (PyError.attributeError ("PosixPath object has no attribute exist"))
          (some alert_id)

/-- Outcome of one worker iteration after the claim rename: the job file
reached the terminal name with the given alert store (done_ok from line
141, done_failed from line 151), or an exception escaped the except
handler and the claimed file was never renamed. -/
inductive WorkerOutcome where
  | done_ok (terminal : String) (store2 : AlertStore)
  | done_failed (terminal : String) (store2 : AlertStore)
  | crashed (e : PyError)

/-- The post-claim part of one worker iteration (gif_worker.py lines
118-153).  On an exception from the body, the handler on line 147 calls
update_alert_status with the local alert_id: if that local was never
bound, the reference itself raises UnboundLocalError inside the handler,
which propagates and leaves the claimed file in place; otherwise the
alert is updated and the claimed file is renamed to the terminal name. -/
def worker_iteration_post_claim (store : AlertStore) (claimed : String)
    (payload : JobPayload) : WorkerOutcome :=
  match worker_try_body payload with
  | BodyResult.ok alert_id gif_name =>
      WorkerOutcome.done_ok (done_name claimed) (worker_success_update store alert_id gif_name)
  | BodyResult.raised _ none =>
      WorkerOutcome.crashed (PyError.unboundLocalError ("alert_id"))
  | BodyResult.raised _ (some alert_id) =>
      WorkerOutcome.done_failed (done_name claimed) (worker_failure_update store alert_id)

lemma apply_updates_fields (updates : List FieldUpdate) : ∀ a : Alert,
    (apply_updates a updates).id = a.id ∧
    (apply_updates a updates).timestamp = a.timestamp ∧
    (apply_updates a updates).source_file = a.source_file ∧
    (apply_updates a updates).score = a.score ∧
    (apply_updates a updates).hits = a.hits ∧
    (apply_updates a updates).jpeg = a.jpeg ∧
    (apply_updates a updates).status = a.status := by
  induction updates with
  | nil => intro a; exact ⟨rfl, rfl, rfl, rfl, rfl, rfl, rfl⟩
  | cons u rest ih =>
      intro a
      cases u with
      | setGif v => exact ih { a with gif := v }

/-- C2: the alert-status writes of the Artifact Worker.  The first
conjunct is the claim-breaking fact: update_alert_status never changes
the status field of any stored record, whatever status string the caller
passes, because the status argument is captured by the named parameter
and only the residual keyword arguments reach dict.update.  So neither
the gif_done write of line 137 nor the gif_failed write of line 147 ever
lands.  The second conjunct is the part of the claim that does hold: if
the alert document does not exist, the update is a no-op, not an
error. -/
lemma update_alert_status_none (store : AlertStore) (alert_id s : String)
    (updates : List FieldUpdate) (h : store alert_id = none) :
    update_alert_status store alert_id s updates = store := by
  unfold update_alert_status
  rw [h]

lemma update_alert_status_some (store : AlertStore) (alert_id s : String)
    (updates : List FieldUpdate) (a : Alert) (h : store alert_id = some a) :
    update_alert_status store alert_id s updates
      = fun k => if k = alert_id then some (apply_updates a updates) else store k := by
  unfold update_alert_status
  rw [h]

theorem update_alert_status_never_writes_status :
    (∀ (store : AlertStore) (alert_id s : String) (updates : List FieldUpdate)
        (k : String),
      (update_alert_status store alert_id s updates k).map Alert.status
        = (store k).map Alert.status) ∧
    (∀ (store : AlertStore) (alert_id gif_name : String),
      store alert_id = none →
        worker_success_update store alert_id gif_name = store ∧
        worker_failure_update store alert_id = store) := by
  constructor
  · intro store alert_id s updates k
    cases hsa : store alert_id with
    | none => rw [update_alert_status_none store alert_id s updates hsa]
    | some a =>
        rw [update_alert_status_some store alert_id s updates a hsa]
        by_cases hk : k = alert_id
        · subst hk
          simp [hsa, (apply_updates_fields updates a).2.2.2.2.2.2]
        · simp only [if_neg hk]
  · intro store alert_id gif_name h
    exact ⟨update_alert_status_none store alert_id _ _ h,
           update_alert_status_none store alert_id _ _ h⟩

/-- Witness for C2: a concrete store whose single record keeps status
gif_queued across the success-path write, and a no-op on a missing id. -/
theorem update_alert_status_never_writes_status_witness :
    (update_alert_status
        (fun k => if k = "a1" then
          some ⟨"a1", 111, "clip.mp4", 9 / 10, [], "a1.jpg", "", "gif_queued"⟩ else none)
        ("a1") ("gif_done") [FieldUpdate.setGif ("a1.gif")] ("a1")).map Alert.status
      = ((fun k => if k = "a1" then
          some ⟨"a1", 111, "clip.mp4", 9 / 10, [], "a1.jpg", "", "gif_queued"⟩ else none)
          ("a1") : Option Alert).map Alert.status ∧
    worker_success_update emptyStore ("zz") ("zz.gif") = emptyStore := by
  obtain ⟨h1, h2⟩ := update_alert_status_never_writes_status
  exact ⟨h1 _ ("a1") ("gif_done") _ ("a1"), (h2 emptyStore ("zz") ("zz.gif") rfl).1⟩

/-- The forward order on alert status values:
queued before gif_queued before the two terminal values. -/
def status_forward (s t : String) : Bool :=
  (s == t)
  || (s == "queued" && (t == "gif_queued" || t == "gif_done" || t == "gif_failed"))
  || (s == "gif_queued" && (t == "gif_done" || t == "gif_failed"))

/-- C8: Alert Record invariant.  Any write performed through
update_alert_status — the only mutation of the alert store in the
system, and it is only called by the Artifact Worker — preserves the id,
timestamp, source_file, hits and score fields of every stored record
(and the jpeg field: only the gif field can change), and moves the
status only forward along the chain queued, gif_queued, gif_done or
gif_failed (here it in fact leaves status unchanged, which is forward
reflexively). -/
theorem alert_record_immutable (store : AlertStore) (alert_id s k : String)
    (updates : List FieldUpdate) (a a2 : Alert)
    (ha : store k = some a)
    (ha2 : update_alert_status store alert_id s updates k = some a2) :
    a2.id = a.id ∧ a2.timestamp = a.timestamp ∧ a2.source_file = a.source_file ∧
    a2.hits = a.hits ∧ a2.score = a.score ∧ a2.jpeg = a.jpeg ∧
    status_forward a.status a2.status = true := by
  cases hsa : store alert_id with
  | none =>
      rw [update_alert_status_none store alert_id s updates hsa, ha] at ha2
      cases ha2
      simp [status_forward]
  | some b =>
      rw [update_alert_status_some store alert_id s updates b hsa] at ha2
      by_cases hk : k = alert_id
      · subst hk
        rw [hsa] at ha
        cases ha
        simp only [if_pos] at ha2
        simp at ha2
        subst ha2
        obtain ⟨h1, h2, h3, h4, h5, h6, h7⟩ := apply_updates_fields updates a
        refine ⟨h1, h2, h3, h5, h4, h6, ?_⟩
        rw [h7]
        simp [status_forward]
      · simp only [if_neg hk] at ha2
        rw [ha] at ha2
        cases ha2
        simp [status_forward]

/-- Witness for C8 at a concrete store and the success-path update. -/
theorem alert_record_immutable_witness :
    (apply_updates ⟨"a1", 111, "clip.mp4", 9 / 10, [], "a1.jpg", "", "gif_queued"⟩
        [FieldUpdate.setGif ("a1.gif")]).id = "a1" ∧
    status_forward "gif_queued"
        (apply_updates ⟨"a1", 111, "clip.mp4", 9 / 10, [], "a1.jpg", "", "gif_queued"⟩
          [FieldUpdate.setGif ("a1.gif")]).status = true := by
  have h := alert_record_immutable
    (fun k => if k = "a1" then
      some ⟨"a1", 111, "clip.mp4", 9 / 10, [], "a1.jpg", "", "gif_queued"⟩ else none)
    "a1" ("gif_done") "a1" [FieldUpdate.setGif ("a1.gif")]
    ⟨"a1", 111, "clip.mp4", 9 / 10, [], "a1.jpg", "", "gif_queued"⟩
    (apply_updates ⟨"a1", 111, "clip.mp4", 9 / 10, [], "a1.jpg", "", "gif_queued"⟩
      [FieldUpdate.setGif ("a1.gif")])
    (by simp) (by simp [update_alert_status])
  exact ⟨h.1, h.2.2.2.2.2.2⟩

/-- C1: jobs the worker claims and the terminal rename.  First conjunct:
when the job payload is malformed (the alert id cannot be recovered),
the except handler itself raises UnboundLocalError on the reference to
alert_id, so the iteration crashes and the claimed file is never renamed
to any terminal name — the job stays in the claimed state.  Second and
third conjuncts: the claim rename produces id.json.processing as the
claim says, but the terminal rename target computed by with_suffix is
id.json.json.done, not id.json.done, because with_suffix replaces only
the final .processing component. -/
theorem malformed_job_stays_claimed :
    (∀ (store : AlertStore) (claimed : String) (e : PyError),
      worker_iteration_post_claim store claimed (JobPayload.unparsable e)
        = WorkerOutcome.crashed (PyError.unboundLocalError ("alert_id"))) ∧
    claimed_name ("a1b2.json") = "a1b2.json.processing" ∧
    done_name ("a1b2.json.processing") = "a1b2.json.json.done" := by
  refine ⟨fun store claimed e => rfl, by decide, by decide⟩

/- ---------------------------------------------------------------------
   gif_worker.py: the job listing of main (lines 89-105) and the claim
   rename race (lines 107-116).  The queue directory is a finite set of
   file names; a rename is atomic: it succeeds exactly when the source
   name still exists, and raises FileNotFoundError otherwise.
--------------------------------------------------------------------- -/

/-- Python Path.glob called with the literal pattern *.json plus the
keyword arguments named in kwarg_names.  Path.glob accepts no keyword
argument named key, so a call passing one raises TypeError before any
directory entry is matched. -/
def path_glob_json (entries : List String) (kwarg_names : List String) :
    Except PyError (List String) :=
  if kwarg_names.isEmpty then
    Except.ok (entries.filter (fun n => n.endsWith (".json")))
  else
    Except.error (PyError.typeError ("glob() got an unexpected keyword argument key"))

/-- Python sorted() with no key argument: ascending by the default
string order (insertion sort). -/
def insert_le (x : String) : List String → List String
  | [] => [x]
  | y :: ys => if x ≤ y then x :: y :: ys else y :: insert_le x ys

/-- Ascending sort of a name listing by the default string order. -/
def sorted_names : List String → List String
  | [] => []
  | x :: xs => insert_le x (sorted_names xs)

/-- The job-listing expression of gif_worker.main (lines 92-99): the
source text passes the mtime key function to Path.glob, not to sorted:
the call is sorted(GIF_QUEUE_DIR.glob(pattern, key=...)).  sorted would
only run on the glob result. -/
def worker_list_jobs (queue : List String) : Except PyError (List String) :=
  match path_glob_json queue [("key")] with
  | Except.error e => Except.error e
  | Except.ok l => Except.ok (sorted_names l)

/-- C3: the claim-step listing.  The claim says the worker lists the
pending queue files, sorts them by modification time ascending, and
claims the oldest.  In the code the sort key is a keyword argument of
Path.glob, which accepts none, so every iteration of the worker loop
raises TypeError from this expression before any job is listed, sorted
or claimed, whatever the queue contents. -/
theorem claim_step_raises_type_error : ∀ queue : List String,
    worker_list_jobs queue
      = Except.error (PyError.typeError ("glob() got an unexpected keyword argument key")) :=
  fun _ => rfl

/-- Atomic filesystem rename: succeeds exactly when the source exists,
removing the source name and creating the destination name in one step;
otherwise fails with FileNotFoundError. -/
def fs_rename (fs : Finset String) (src dst : String) : Except PyError (Finset String) :=
  if src ∈ fs then Except.ok (insert dst (fs.erase src))
  else Except.error (PyError.fileNotFoundError src)

/-- Whether a claim attempt succeeded. -/
def claim_ok : Except PyError Unit → Bool
  | Except.ok _ => true
  | Except.error _ => false

/-- Interleaved claim attempts on one job (gif_worker.py line 110):
each process in the schedule performs its single atomic rename of the
pending name to the claimed name, in schedule order.  Returns the final
filesystem and, per process, the outcome its attempt observed. -/
def run_claims (pending claimed : String) :
    List Nat → Finset String → Finset String × List (Nat × Except PyError Unit)
  | [], fs => (fs, [])
  | p :: rest, fs =>
      match fs_rename fs pending claimed with
      | Except.ok fs2 =>
          ((run_claims pending claimed rest fs2).1,
            (p, Except.ok ()) :: (run_claims pending claimed rest fs2).2)
      | Except.error e =>
          ((run_claims pending claimed rest fs).1,
            (p, Except.error e) :: (run_claims pending claimed rest fs).2)

lemma run_claims_all_fail (pending claimed : String) (ps : List Nat) :
    ∀ fs : Finset String, pending ∉ fs →
    ∀ r ∈ (run_claims pending claimed ps fs).2,
      r.2 = Except.error (PyError.fileNotFoundError pending) := by
  induction ps with
  | nil => intro fs _ r hr; cases hr
  | cons p rest ih =>
      intro fs h r hr
      have hstep : fs_rename fs pending claimed
          = Except.error (PyError.fileNotFoundError pending) := by
        simp [fs_rename, h]
      simp only [run_claims, hstep] at hr
      rcases List.mem_cons.mp hr with hh | hh
      · rw [hh]
      · exact ih fs h r hh

/-- C9: claiming is exclusive.  For any nonempty schedule of processes
that each attempt the claim rename of the same pending job file, exactly
one attempt succeeds, and every attempt that did not succeed observed
precisely FileNotFoundError — the normal race outcome the worker
silently skips.  In particular at most one process ever holds the job in
the claimed state. -/
theorem claim_exclusive (pending claimed : String) (ps : List Nat) (fs0 : Finset String)
    (hmem : pending ∈ fs0) (hne : claimed ≠ pending) (hps : ps ≠ []) :
    (run_claims pending claimed ps fs0).2.countP (fun r => claim_ok r.2) = 1 ∧
    ∀ r ∈ (run_claims pending claimed ps fs0).2,
      claim_ok r.2 = false → r.2 = Except.error (PyError.fileNotFoundError pending) := by
  cases ps with
  | nil => exact absurd rfl hps
  | cons p rest =>
      have hstep : fs_rename fs0 pending claimed
          = Except.ok (insert claimed (fs0.erase pending)) := by
        simp [fs_rename, hmem]
      have hout : pending ∉ insert claimed (fs0.erase pending) := by
        intro hc
        rcases Finset.mem_insert.mp hc with h | h
        · exact hne h.symm
        · exact (Finset.mem_erase.mp h).1 rfl
      have hall := run_claims_all_fail pending claimed rest _ hout
      have hc0 : (run_claims pending claimed rest
          (insert claimed (fs0.erase pending))).2.countP (fun r => claim_ok r.2) = 0 := by
        refine List.countP_eq_zero.mpr ?_
        intro r hr
        rw [hall r hr]
        simp [claim_ok]
      constructor
      · simp only [run_claims, hstep]
        rw [List.countP_cons, hc0]
        simp [claim_ok]
      · intro r hr hfalse
        simp only [run_claims, hstep] at hr
        rcases List.mem_cons.mp hr with hh | hh
        · rw [hh] at hfalse
          cases hfalse
        · exact hall r hh

/-- Witness for C9: two workers race for the job a.json. -/
theorem claim_exclusive_witness :
    (run_claims ("a.json") ("a.json.processing") [0, 1]
        ({"a.json"} : Finset String)).2.countP (fun r => claim_ok r.2) = 1 := by
  exact (claim_exclusive ("a.json") ("a.json.processing") [0, 1]
    ({"a.json"} : Finset String) (by simp) (by decide) (by simp)).1

/- ---------------------------------------------------------------------
   ui_app.py: the basic-auth middleware (lines 50-109).
--------------------------------------------------------------------- -/

set_option linter.unusedVariables false in
/-- The helper on ui_app.py lines 54-55: hmac.compare_digest applied to
the utf-8 encoding of time_a on both sides — the second parameter is
never used, the body encodes time_a twice. -/
def _constant_time_equal (time_a time_b : String) : Bool :=
  (String.toUTF8 time_a).data.toList == (String.toUTF8 time_a).data.toList

/-- Python substring containment: the expression path in s on a string s
checks whether path occurs inside s (ui_app.py line 74 parenthesizes a
single string, which is not a tuple). -/
def py_in_chars (needle : List Char) : List Char → Bool
  | [] => needle.isEmpty
  | c :: rest => needle.isPrefixOf (c :: rest) || py_in_chars needle rest

/-- Substring containment lifted to strings. -/
def py_in_str (needle hay : String) : Bool := py_in_chars needle.data hay.data

/-- The response of the middleware. -/
inductive AuthDecision where
  | allow
  | unauthorized (msg : String)
  deriving DecidableEq, Repr

/-- require_basic_auth (ui_app.py lines 71-109).  The request is
abstracted to its path and the authorization header state: none means no
header, some none a header that _parse_basic_auth rejects, and
some (some (user, pw)) a syntactically well-formed Basic credential
pair. -/
def require_basic_auth (dashboard_user dashboard_pass path : String)
    (auth : Option (Option (String × String))) : AuthDecision :=
  if py_in_str path ("/healthz") then AuthDecision.allow
  else if dashboard_pass = "" then AuthDecision.allow
  else
    match auth with
    | none => AuthDecision.unauthorized ("Authentication required")
    | some none => AuthDecision.unauthorized ("Invalid authentication")
    | some (some (user, pw)) =>
        if _constant_time_equal user dashboard_user
            && _constant_time_equal pw dashboard_pass then
          AuthDecision.allow
        else
          AuthDecision.unauthorized ("Unauthorized")

/-- C10: _constant_time_equal compares the encoding of its first
argument against itself, so it returns true for every pair of strings;
consequently the middleware accepts any syntactically well-formed Basic
credentials, whatever username and password are configured and whatever
the request path is. -/
theorem constant_time_equal_always_true :
    (∀ time_a time_b : String, _constant_time_equal time_a time_b = true) ∧
    (∀ dashboard_user dashboard_pass path user pw : String,
      require_basic_auth dashboard_user dashboard_pass path (some (some (user, pw)))
        = AuthDecision.allow) := by
  have hct : ∀ time_a time_b : String, _constant_time_equal time_a time_b = true := by
    intro time_a time_b
    simp [_constant_time_equal]
  refine ⟨hct, ?_⟩
  intro dashboard_user dashboard_pass path user pw
  unfold require_basic_auth
  split
  · rfl
  · split
    · rfl
    · simp [hct]

/- ---------------------------------------------------------------------
   common.py: the Stability Gate.
--------------------------------------------------------------------- -/

/-- The number of size re-polls the stability loop performs: the while
loop adds poll_seconds to the waited counter until it reaches
stable_seconds, polling once per iteration. -/
def num_polls (stable_seconds poll_seconds : Nat) : Nat :=
  if poll_seconds = 0 then 0
  else (stable_seconds + poll_seconds - 1) / poll_seconds

/-- Modelled from the spec: the body of file_is_stable in src/common.py
breaks off after the second size read (the file is truncated
mid-function), so the rest of the Stability Gate is modelled from the
spec, section 4.1: read the current size of the file, then re-poll every
poll interval until the stability window has elapsed; return true only
if the size was unchanged across every poll in the window, and false —
without raising — if the file disappears or changes size at any poll.
size_at gives the observation at the initial read (index 0) and at the
k-th poll (index k); none is a FileNotFoundError at that stat call. -/
def file_is_stable (size_at : Nat → Option Nat)
    (stable_seconds poll_seconds : Nat) : Bool :=
  match size_at 0 with
  | none => false
  | some size1 =>
      (List.range (num_polls stable_seconds poll_seconds)).all
        (fun k => size_at (k + 1) == some size1)

/-- C6: for every file whose size is unchanged at every observation
across the stability window, file_is_stable returns true; for every file
that disappears or changes size at some observation in the window, it
returns false.  Totality of the function is the no-raise guarantee: a
vanished file is an ordinary false, not an exception. -/
theorem file_is_stable_spec (size_at : Nat → Option Nat)
    (stable_seconds poll_seconds : Nat) :
    ((∃ s : Nat, ∀ k, k ≤ num_polls stable_seconds poll_seconds → size_at k = some s) →
      file_is_stable size_at stable_seconds poll_seconds = true) ∧
    ((∃ k, k ≤ num_polls stable_seconds poll_seconds ∧ size_at k = none) →
      file_is_stable size_at stable_seconds poll_seconds = false) ∧
    ((∃ k, k ≤ num_polls stable_seconds poll_seconds ∧ size_at k ≠ size_at 0) →
      file_is_stable size_at stable_seconds poll_seconds = false) := by
  refine ⟨?_, ?_, ?_⟩
  · rintro ⟨s, hs⟩
    have h0 : size_at 0 = some s := hs 0 (Nat.zero_le _)
    rw [file_is_stable, h0]
    refine List.all_eq_true.mpr ?_
    intro k hk
    have hk2 : k + 1 ≤ num_polls stable_seconds poll_seconds :=
      List.mem_range.mp hk
    rw [hs (k + 1) hk2]
    simp
  · rintro ⟨k, hk, hnone⟩
    cases hj : size_at 0 with
    | none => rw [file_is_stable, hj]
    | some s1 =>
        cases k with
        | zero => rw [hj] at hnone; cases hnone
        | succ j =>
            rw [file_is_stable, hj]
            refine Bool.eq_false_iff.mpr ?_
            intro hall
            have hj2 : j ∈ List.range (num_polls stable_seconds poll_seconds) :=
              List.mem_range.mpr (Nat.lt_of_succ_le hk)
            have := List.all_eq_true.mp hall j hj2
            rw [hnone] at this
            cases this
  · rintro ⟨k, hk, hchg⟩
    cases hj : size_at 0 with
    | none => rw [file_is_stable, hj]
    | some s1 =>
        cases k with
        | zero => rw [hj] at hchg; exact absurd rfl hchg
        | succ j =>
            rw [file_is_stable, hj]
            refine Bool.eq_false_iff.mpr ?_
            intro hall
            have hj2 : j ∈ List.range (num_polls stable_seconds poll_seconds) :=
              List.mem_range.mpr (Nat.lt_of_succ_le hk)
            have heq := List.all_eq_true.mp hall j hj2
            rw [hj] at hchg
            exact hchg (by simpa using heq)

/-- Witness for C6 with the source defaults: a steady 42-byte file over
the 8-second window polled every 2 seconds, and a file that vanishes at
the first poll. -/
theorem file_is_stable_spec_witness :
    file_is_stable (fun _ => some 42) 8 2 = true ∧
    file_is_stable (fun k => if k = 0 then some 42 else none) 8 2 = false := by
  refine ⟨(file_is_stable_spec (fun _ => some 42) 8 2).1 ⟨42, fun k _ => rfl⟩, ?_⟩
  exact (file_is_stable_spec (fun k => if k = 0 then some 42 else none) 8 2).2.1
    ⟨1, by decide, by decide⟩
